import Mathlib

/-!
Shallow embedding of the fava sankey flow-graph aggregation engine.

Sources embedded here:
- frontend/src/charts/sankeyplot.ts : the edge decoder (function sankeyplot),
  which turns raw records of node-id strings and 3-tuples
  (sourceId, targetId, valueToken) into nodes, flow links, budget overlay
  links and collapsed links, maintaining a per-record collapse-exclusion map.
- the sankey Svelte component in src/fava/templates/_charts.html :
  compute_total, compute_percent, compute_budget_actual, compute_name,
  with the constant exclude_percent = 0.005.

Modelling conventions:
- JS numbers are modelled as rationals; Number.EPSILON is 1 / 2 ^ 52 and
  Math.round x is the floor of x + 1/2, which agrees with JS on every input.
- Number(string) is modelled as an Option over rationals, none standing for
  NaN, covering the plain decimal forms that occur in the payloads.
- Arrays indexed by node index become lists with List.set and List.getD 0;
  the d3 sankey layer guarantees that edge endpoint indices are positions
  in the node list, so out-of-range accesses do not occur on real inputs.
- The imperative loops of the source are folds; the decoder loop appends a
  per-tuple contribution that does not depend on the accumulated state, so
  it is written as a structural recursion that concatenates contributions.
- The JS runtime error raised by the decoder on a collapsed edge whose
  source id has no underscore in its first colon segment (split("_")[1] is
  undefined, and undefined.includes throws) is modelled by Option.none.
-/

/-- Number.EPSILON of JS. -/
def jsEPSILON : ℚ := 1 / 2 ^ 52

/-- Math.round of JS: floor of x + 1/2 (JS rounds half toward positive infinity). -/
def jsRound (x : ℚ) : ℤ := Int.floor (x + 1 / 2)

/-- The rounding step Math.round((x + Number.EPSILON) * 100) / 100 used by the
sankey component to round running totals and percents to 2 decimal places. -/
def round2 (x : ℚ) : ℚ := (jsRound ((x + jsEPSILON) * 100) : ℚ) / 100

/-- Left-pad a digit string with zeros to d characters. -/
def padZeros (d : ℕ) (s : String) : String :=
  String.mk (List.replicate (d - s.length) '0') ++ s

/-- Number.prototype.toFixed of JS on a rational: per the ES spec, a negative
input is rendered as a minus sign followed by toFixed of its negation, and the
magnitude is scaled by 10 ^ d and rounded to the nearest integer, ties upward. -/
def toFixed (d : ℕ) (x : ℚ) : String :=
  let sgn := if x < 0 then "-" else ""
  let n := (Int.floor (|x| * 10 ^ d + 1 / 2)).toNat
  if d = 0 then sgn ++ toString n
  else sgn ++ toString (n / 10 ^ d) ++ "." ++ padZeros d (toString (n % 10 ^ d))

/-- Helper for substring containment on character lists. -/
def hasSubList (sub : List Char) : List Char → Bool
  | [] => sub.isEmpty
  | c :: t => List.isPrefixOf sub (c :: t) || hasSubList sub t

/-- Split a character list at every occurrence of a separator character. -/
def splitChAux (sep : Char) : List Char → List (List Char)
  | [] => [[]]
  | c :: t =>
    if c = sep then [] :: splitChAux sep t
    else
      match splitChAux sep t with
      | [] => [[c]]
      | h :: r => (c :: h) :: r

/-- String.prototype.split of JS with a one-character separator, the only
form the source uses; the empty string splits to a single empty piece and
consecutive separators produce empty pieces, as in JS. -/
def jsSplit (s : String) (sep : Char) : List String :=
  (splitChAux sep s.toList).map String.mk

/-- String.prototype.includes of JS: substring containment. -/
def jsIncludes (s sub : String) : Bool := hasSubList sub.toList s.toList

/-- Parse a nonempty list of decimal digits; none on any non-digit. -/
def digitsToNat? (l : List Char) : Option ℕ :=
  if l.isEmpty then none
  else l.foldlM (fun acc c => if c.isDigit then some (10 * acc + (c.toNat - 48)) else none) 0

/-- Number(string) of JS on the decimal forms used by the payload tokens:
the empty string is 0, an optional leading minus sign, an integer part and an
optional fractional part after a dot; anything else is NaN, modelled as none. -/
def jsNumber (s : String) : Option ℚ :=
  match s.toList with
  | [] => some 0
  | l =>
    let sgn : ℚ := if l.head? = some '-' then -1 else 1
    let r := if l.head? = some '-' then l.tail else l
    match splitChAux '.' r with
    | [i] => (digitsToNat? i).map (fun n => sgn * n)
    | [i, f] =>
      match (if i.isEmpty then some 0 else digitsToNat? i), digitsToNat? f with
      | some ip, some fp => some (sgn * ((ip : ℚ) + (fp : ℚ) / 10 ^ f.length))
      | _, _ => none
    | _ => none

/-! ## The sankey-layer graph, as handed to the Svelte component

After d3-sankey has resolved ids, each link of the data carries its endpoint
node objects; a node object is its id string plus its index, which is the
position of the node in the node list. Links are therefore modelled with
endpoint indices, and the id of an endpoint is read off the node list. The
budget_actual links are not touched by d3 and keep their string endpoints. -/

structure GNode where
  id : String
deriving DecidableEq, Repr

structure GLink where
  source : ℕ
  target : ℕ
  value : ℚ
deriving DecidableEq, Repr

structure GBudget where
  source : String
  target : String
  value : ℚ
deriving DecidableEq, Repr

structure GData where
  nodes : List GNode
  links : List GLink
  budget_actual : List GBudget
deriving DecidableEq, Repr

/-- The id of the node at index i (the id field of g.nodes[i]). -/
def idOf (g : GData) (i : ℕ) : String := (g.nodes.getD i ⟨""⟩).id

/-- The in_degree array of compute_total: for each edge, increment the slot
of its target index. -/
def indeg (g : GData) : List ℕ :=
  g.links.foldl (fun d e => d.set e.target (d.getD e.target 0 + 1)) (List.replicate g.nodes.length 0)

/-- One iteration of the second loop of compute_total: if the source of the
edge has in-degree 0, add the edge value into the source slot (rounded);
then unconditionally add the edge value into the target slot (rounded). -/
def tstep (dg : List ℕ) (ans : List ℚ) (e : GLink) : List ℚ :=
  let a1 := if dg.getD e.source 0 = 0
    then ans.set e.source (round2 (e.value + ans.getD e.source 0))
    else ans
  a1.set e.target (round2 (a1.getD e.target 0 + e.value))

/-- compute_total of the sankey component: fold the per-edge total update
over the links in input order, starting from the all-zero array. -/
def compute_total (g : GData) : List ℚ :=
  g.links.foldl (tstep (indeg g)) (List.replicate g.nodes.length 0)

/-- Totals after processing only the first k links (a prefix of the input
order); compute_total is this at k = number of links. -/
def totalAfter (g : GData) (k : ℕ) : List ℚ :=
  (g.links.take k).foldl (tstep (indeg g)) (List.replicate g.nodes.length 0)

/-- Whether an id contains an Income or Assets marker, the test used by
compute_percent for swapping and for the canonical-root assignment. -/
def markerIA (s : String) : Bool := jsIncludes s "Income" || jsIncludes s "Assets"

/-- The source index used by one percent iteration after the possible swap:
the edge target when the target id contains Income or Assets, else the
edge source. -/
def swappedSource (g : GData) (e : GLink) : ℕ :=
  if markerIA (idOf g e.target) then e.target else e.source

/-- The target index used by one percent iteration after the possible swap. -/
def swappedTarget (g : GData) (e : GLink) : ℕ :=
  if markerIA (idOf g e.target) then e.source else e.target

/-- One iteration of compute_percent: swap source and target if the target id
contains Income or Assets; otherwise, if the source id contains Income or
Assets, set the source percent to 1; then, if the (possibly swapped) source
total is positive, write the rounded ratio of totals into the (possibly
swapped) target slot, rebased by the source percent when the original target
id contains Expenses and has more than two colon segments. -/
def pstep (g : GData) (totals : List ℚ) (ans : List ℚ) (e : GLink) : List ℚ :=
  let tInc := markerIA (idOf g e.target)
  let sInc := markerIA (idOf g e.source)
  let s := swappedSource g e
  let t := swappedTarget g e
  let ans1 := if tInc then ans else if sInc then ans.set e.source 1 else ans
  if 0 < totals.getD s 0 then
    if jsIncludes (idOf g e.target) "Expenses"
        && decide (2 < (jsSplit (idOf g e.target) ':').length) then
      ans1.set t (round2 (totals.getD t 0 / totals.getD s 0) * ans1.getD s 0)
    else
      ans1.set t (round2 (totals.getD t 0 / totals.getD s 0))
  else ans1

/-- compute_percent of the sankey component, parametric in the totals array
it reads (the component reads the reactive nodes_total). -/
def compute_percent (g : GData) (totals : List ℚ) : List ℚ :=
  g.links.foldl (pstep g totals) (List.replicate g.nodes.length 0)

/-- The reactive pipeline value nodes_percent = compute_percent over
nodes_total = compute_total. -/
def nodes_percent (g : GData) : List ℚ := compute_percent g (compute_total g)

/-- The name_index_map of compute_budget_actual: a JS Map built from the flow
links mapping each target id to its target index, later entries overwriting
earlier ones. -/
def name_index_map (g : GData) : String → Option ℕ :=
  g.links.foldl (fun m e => fun k => if k = idOf g e.target then some e.target else m k)
    (fun _ => none)

/-- compute_budget_actual: start from the all-zero array and, for each budget
overlay edge, write its value at the index mapped from its target id; a JS
lookup miss yields undefined and the write actual[undefined] does not touch
any numeric slot, so it is modelled as leaving the array unchanged. -/
def compute_budget_actual (g : GData) : List ℚ :=
  g.budget_actual.foldl (fun act be =>
    match name_index_map g be.target with
    | some i => act.set i be.value
    | none => act) (List.replicate g.nodes.length 0)

/-- The label suppression threshold of the sankey component. -/
def exclude_percent : ℚ := 5 / 1000

/-- The short display name in percent mode: the last colon segment of the id
and, if that segment contains an underscore, the part after the last one. -/
def nameShort (id : String) : String :=
  let ss := (jsSplit id ':').getLastD ""
  if jsIncludes ss "_" then (jsSplit ss '_').getLastD "" else ss

/-- The label of one node, as computed by the body of the loop of
compute_name at index i. In budget mode the prefix is id.split("_")[1]; when
the id has no underscore this JS expression is undefined and string
concatenation renders it as the text undefined, which is modelled by the
default of getD. -/
def nameAt (g : GData) (totals percents actual : List ℚ) (i : ℕ) (nd : GNode) : String :=
  if g.budget_actual.length = 0 then
    if 2 < (jsSplit nd.id ':').length ∧ percents.getD i 0 < exclude_percent then ""
    else nameShort nd.id ++ ": " ++ toFixed 2 (totals.getD i 0)
      ++ " (" ++ toFixed 0 (percents.getD i 0 * 100) ++ "%)"
  else
    ((jsSplit nd.id '_').getD 1 "undefined") ++ " ["
      ++ toFixed 2 (totals.getD i 0) ++ "/"
      ++ toFixed 2 (totals.getD i 0 - actual.getD i 0) ++ "]"
      ++ " (" ++ toFixed 0 (percents.getD i 0 * 100) ++ "%)"

/-- The loop of compute_name: each node writes exactly the slot of its own
index, and node indices are the positions in the node list, so the result is
the list of per-node labels in node order. -/
def compute_name_aux (g : GData) (totals percents actual : List ℚ) :
    ℕ → List GNode → List String
  | _, [] => []
  | i, nd :: rest =>
    nameAt g totals percents actual i nd
      :: compute_name_aux g totals percents actual (i + 1) rest

/-- compute_name of the sankey component, parametric in the arrays it reads
(the component reads the reactive nodes_total, nodes_percent, nodes_actual). -/
def compute_name (g : GData) (totals percents actual : List ℚ) : List String :=
  compute_name_aux g totals percents actual 0 g.nodes

/-- The reactive pipeline value nodes_name. -/
def nodes_name (g : GData) : List String :=
  compute_name g (compute_total g) (nodes_percent g) (compute_budget_actual g)

/-! ## The edge decoder (function sankeyplot of sankeyplot.ts)

A raw record holds the two JSON-decoded fields of one payload entry: the list
of node id strings and the list of raw link 3-tuples. The decoder splits the
value token of each tuple on single spaces: one token gives a flow link, two
tokens whose second is the literal collapsed give a collapsed link plus an
entry in the per-record collapse-exclusion map, two other tokens give a flow
link plus a budget overlay link, and any other token count contributes
nothing. After the links of a record are processed, the node ids of the
record are appended, skipping those in the exclusion map; the map starts
empty for every record. -/

structure SankeyRawLink where
  source : String
  target : String
  value : String
deriving DecidableEq, Repr

structure SankeyRecord where
  nodes_ss : List String
  links_ss : List SankeyRawLink
deriving DecidableEq, Repr

structure SankeyLink where
  source : String
  target : String
  value : Option ℚ
deriving DecidableEq, Repr

/-- The contribution of one raw link tuple: entries appended to data.links,
data.budget_actual and data.collapsed_links, and ids set in the per-record
collapse-exclusion map. -/
structure LinkDelta where
  links : List SankeyLink
  budget_actual : List SankeyLink
  collapsed_links : List SankeyLink
  excluded : List String
deriving DecidableEq, Repr

def LinkDelta.append (a b : LinkDelta) : LinkDelta :=
  ⟨a.links ++ b.links, a.budget_actual ++ b.budget_actual,
   a.collapsed_links ++ b.collapsed_links, a.excluded ++ b.excluded⟩

/-- link[2].split(' ') of the decoder. -/
def splitTok (tok : String) : List String := jsSplit tok ' '

/-- link[0].split(":")[0].split("_")[1] of the collapsed branch: none models
the undefined value obtained when the first colon segment has no underscore,
on which the subsequent includes call throws. -/
def first_part (source : String) : Option String :=
  (jsSplit ((jsSplit source ':').headD "") '_').get? 1

/-- The category test of the collapsed branch: whether the extracted part
contains Assets, Expenses or Equity as a substring. -/
def catHit (fp : String) : Bool :=
  jsIncludes fp "Assets" || jsIncludes fp "Expenses" || jsIncludes fp "Equity"

/-- The body of the decoder loop for one raw link tuple; none models the
uncaught JS TypeError in the collapsed branch when first_part is undefined. -/
def processTuple (l : SankeyRawLink) : Option LinkDelta :=
  match splitTok l.value with
  | [v] => some ⟨[⟨l.source, l.target, jsNumber v⟩], [], [], []⟩
  | [v1, v2] =>
    if v2 = "collapsed" then
      match first_part l.source with
      | some fp =>
        some ⟨[], [], [⟨l.source, l.target, jsNumber v1⟩],
          [if catHit fp then l.target else l.source]⟩
      | none => none
    else
      some ⟨[⟨l.source, l.target, jsNumber v1⟩],
        [⟨l.source, l.target, jsNumber v2⟩], [], []⟩
  | _ => some ⟨[], [], [], []⟩

/-- The decoder loop over the raw link tuples of one record: each iteration
appends its contribution, independently of the accumulated state. -/
def decodeLinks : List SankeyRawLink → Option LinkDelta
  | [] => some ⟨[], [], [], []⟩
  | l :: rest =>
    match processTuple l, decodeLinks rest with
    | some d, some ds => some (d.append ds)
    | _, _ => none

/-- The decoded data of the sankeyplot function; nodes are modelled by their
id strings (the source pushes objects of shape id holding the string). -/
structure SankeyData where
  nodes : List String
  links : List SankeyLink
  budget_actual : List SankeyLink
  collapsed_links : List SankeyLink
deriving DecidableEq, Repr

/-- Decoding one record: process its links, then append its node ids,
skipping those the fresh per-record exclusion map has marked. -/
def decodeRecord (r : SankeyRecord) : Option SankeyData :=
  (decodeLinks r.links_ss).map (fun d =>
    ⟨r.nodes_ss.filter (fun nd => !(d.excluded.contains nd)),
     d.links, d.budget_actual, d.collapsed_links⟩)

/-- The sankeyplot decoder over the whole payload: records are processed in
order and their contributions appended to the shared data value. -/
def sankeyplot : List SankeyRecord → Option SankeyData
  | [] => some ⟨[], [], [], []⟩
  | r :: rest =>
    match decodeRecord r, sankeyplot rest with
    | some d, some ds =>
      some ⟨d.nodes ++ ds.nodes, d.links ++ ds.links,
        d.budget_actual ++ ds.budget_actual, d.collapsed_links ++ ds.collapsed_links⟩
    | _, _ => none

/-- Modelled from the spec: the top-level category of a source id per the
words of the collapse-resolver claim, namely the token preceding the first
colon with any underscore prefix stripped. -/
def specCategory (s : String) : String :=
  let seg := (jsSplit s ':').headD ""
  match jsSplit seg '_' with
  | _ :: r :: rs => String.intercalate "_" (r :: rs)
  | _ => seg

/-! ## Helper lemmas on list arrays -/

theorem getD_set_eq {α : Type} (l : List α) (i : ℕ) (a d : α) (h : i < l.length) :
    (l.set i a).getD i d = a := by
  simp [List.getD_eq_getElem?_getD, List.getElem?_set_self h]

theorem getD_set_ne {α : Type} (l : List α) {i j : ℕ} (a d : α) (h : i ≠ j) :
    (l.set i a).getD j d = l.getD j d := by
  simp [List.getD_eq_getElem?_getD, List.getElem?_set_ne h]

theorem getD_replicate_zero (n i : ℕ) :
    (List.replicate n (0 : ℚ)).getD i 0 = 0 := by
  simp only [List.getD_eq_getElem?_getD, List.getElem?_replicate]
  split <;> rfl

/-! ## Claim C1: Scenario A -/

/-- The scenario-A graph at the sankey layer: nodes Income, Income:Job and
Expenses:Food, and the flow edges Income:Job to Income with value 100 and
Income to Expenses:Food with value 40, with endpoints resolved to the node
positions. -/
def gScenA : GData :=
  ⟨[⟨"Income"⟩, ⟨"Income:Job"⟩, ⟨"Expenses:Food"⟩], [⟨1, 0, 100⟩, ⟨0, 2, 40⟩], []⟩

theorem gScenA_total : compute_total gScenA = [100, 100, 40] := by
  simp [gScenA, compute_total, tstep, indeg, round2, jsRound, jsEPSILON]
  norm_num [Int.floor_eq_iff]

theorem gScenA_percent : nodes_percent gScenA = [1, 1, 2 / 5] := by
  unfold nodes_percent
  rw [gScenA_total]
  simp [gScenA, compute_percent, pstep, swappedSource, swappedTarget, idOf, markerIA,
    jsIncludes, hasSubList, jsSplit, splitChAux, round2, jsRound, jsEPSILON]
  norm_num [Int.floor_eq_iff]

/-- C1: on the scenario-A input graph, the total propagator assigns Income
(node 0) a total of 100 and Expenses:Food (node 2) a total of 40, and the
percent computer assigns Expenses:Food a percent of 0.40. -/
theorem claim_C1 :
    idOf gScenA 0 = "Income" ∧ idOf gScenA 2 = "Expenses:Food" ∧
    (compute_total gScenA).getD 0 0 = 100 ∧
    (compute_total gScenA).getD 2 0 = 40 ∧
    (nodes_percent gScenA).getD 2 0 = 40 / 100 := by
  refine ⟨by decide, by decide, ?_, ?_, ?_⟩
  · rw [gScenA_total]; rfl
  · rw [gScenA_total]; rfl
  · rw [gScenA_percent]; norm_num

/-! ## Claim C6: division guard in the percent computer -/

/-- C6: compute_percent folds pstep over the links, and whenever the
(possibly swapped) source total of an edge is exactly zero, the percent
iteration for that edge leaves the (possibly swapped) target percent at its
prior value: the guarded division branch is not taken. -/
theorem claim_C6 (g : GData) (totals ans : List ℚ) (e : GLink)
    (h : totals.getD (swappedSource g e) 0 = 0) :
    compute_percent g totals
        = g.links.foldl (pstep g totals) (List.replicate g.nodes.length 0) ∧
    (pstep g totals ans e).getD (swappedTarget g e) 0
        = ans.getD (swappedTarget g e) 0 := by
  refine ⟨rfl, ?_⟩
  dsimp only [pstep]
  rw [h, if_neg (lt_irrefl (0 : ℚ))]
  by_cases htInc : markerIA (idOf g e.target) = true
  · simp [htInc]
  · rw [Bool.not_eq_true] at htInc
    by_cases hsInc : markerIA (idOf g e.source) = true
    · have hne : e.source ≠ swappedTarget g e := by
        unfold swappedTarget
        rw [htInc]
        simp only [Bool.false_eq_true, if_false]
        intro hEq
        rw [hEq] at hsInc
        rw [hsInc] at htInc
        exact Bool.true_eq_false.mp htInc
      simp only [htInc, hsInc, Bool.false_eq_true, if_false, if_true]
      exact getD_set_ne ans 1 0 hne
    · rw [Bool.not_eq_true] at hsInc
      simp [htInc, hsInc]

/-- A concrete graph for instantiating the division-guard theorem: one edge
between two Expenses nodes whose source total is zero. -/
def gC6w : GData := ⟨[⟨"Expenses:A"⟩, ⟨"Expenses:B"⟩], [⟨0, 1, 5⟩], []⟩

/-- Witness for C6 at a concrete edge with zero source total. -/
theorem claim_C6_witness :
    ([0, 0] : List ℚ).getD (swappedSource gC6w ⟨0, 1, 5⟩) 0 = 0 ∧
    (pstep gC6w [0, 0] [0, 0] ⟨0, 1, 5⟩).getD (swappedTarget gC6w ⟨0, 1, 5⟩) 0
      = ([0, 0] : List ℚ).getD (swappedTarget gC6w ⟨0, 1, 5⟩) 0 := by
  have h : ([0, 0] : List ℚ).getD (swappedSource gC6w ⟨0, 1, 5⟩) 0 = 0 := by
    simp [gC6w, swappedSource, markerIA, jsIncludes, hasSubList, idOf]
  exact ⟨h, (claim_C6 gC6w [0, 0] [0, 0] ⟨0, 1, 5⟩ h).2⟩

/-! ## Claim C3: root percent invariant -/

theorem pstep_length (g : GData) (totals ans : List ℚ) (e : GLink) :
    (pstep g totals ans e).length = ans.length := by
  dsimp only [pstep]
  split_ifs <;> simp [List.length_set]

/-- The percent slot of a node i with an Income or Assets marker, after one
percent iteration for an edge that does not point into i and whose target id
carries no Income or Assets marker whenever its source is i: edges out of i
set the slot to 1 and all other edges leave it unchanged. -/
theorem pstep_at_i (g : GData) (totals : List ℚ) (i : ℕ) (ans : List ℚ) (e : GLink)
    (hlen : ans.length = g.nodes.length) (hi : i < g.nodes.length)
    (hm : markerIA (idOf g i) = true)
    (ht : e.target ≠ i)
    (hs : e.source = i → markerIA (idOf g e.target) = false) :
    (pstep g totals ans e).getD i 0 = if e.source = i then 1 else ans.getD i 0 := by
  dsimp only [pstep]
  by_cases hsrc : e.source = i
  · rw [if_pos hsrc]
    have htInc : markerIA (idOf g e.target) = false := hs hsrc
    have hsInc : markerIA (idOf g e.source) = true := by rw [hsrc]; exact hm
    have hT : swappedTarget g e ≠ i := by
      unfold swappedTarget
      rw [htInc]
      simpa using ht
    have hset : (ans.set e.source 1).getD i 0 = 1 := by
      rw [hsrc]
      exact getD_set_eq ans i 1 0 (by rw [hlen]; exact hi)
    simp only [htInc, hsInc, Bool.false_eq_true, if_false, if_true]
    split_ifs with h1 h2
    · rw [getD_set_ne _ _ _ hT, hset]
    · rw [getD_set_ne _ _ _ hT, hset]
    · exact hset
  · rw [if_neg hsrc]
    have hS : e.source ≠ i := hsrc
    have hsw : swappedTarget g e ≠ i := by
      unfold swappedTarget
      split
      · exact hS
      · exact ht
    split_ifs <;> simp only [getD_set_ne _ _ _ hsw, getD_set_ne _ _ _ hS]

/-- Folding pstep over edges that never point into node i, and out of which
i is never connected to an Income or Assets target, yields percent 1 at i as
soon as some processed edge has source i or the slot is already 1. -/
theorem pfold_one (g : GData) (totals : List ℚ) (i : ℕ)
    (hi : i < g.nodes.length) (hm : markerIA (idOf g i) = true) :
    ∀ (l : List GLink) (ans : List ℚ), ans.length = g.nodes.length →
    (∀ e ∈ l, e.target ≠ i) →
    (∀ e ∈ l, e.source = i → markerIA (idOf g e.target) = false) →
    ((∃ e ∈ l, e.source = i) ∨ ans.getD i 0 = 1) →
    (l.foldl (pstep g totals) ans).getD i 0 = 1 := by
  intro l
  induction l with
  | nil =>
    intro ans hlen hT hS hstart
    rcases hstart with ⟨e, he, _⟩ | h1
    · exact absurd he (List.not_mem_nil e)
    · simpa using h1
  | cons e l ih =>
    intro ans hlen hT hS hstart
    rw [List.foldl_cons]
    apply ih (pstep g totals ans e)
    · rw [pstep_length]; exact hlen
    · intro e' he'; exact hT e' (List.mem_cons_of_mem e he')
    · intro e' he' hsrc; exact hS e' (List.mem_cons_of_mem e he') hsrc
    · have hstep := pstep_at_i g totals i ans e hlen hi hm
        (hT e (List.mem_cons_self e l)) (hS e (List.mem_cons_self e l))
      by_cases hsrc : e.source = i
      · right; rw [hstep, if_pos hsrc]
      · rcases hstart with ⟨e', he', hsrc'⟩ | h1
        · rcases List.mem_cons.mp he' with hEq | hmem
          · exact absurd (hEq ▸ hsrc') hsrc
          · exact Or.inl ⟨e', hmem, hsrc'⟩
        · right; rw [hstep, if_neg hsrc]; exact h1

/-- A graph with a single isolated Income node and no links. -/
def gC3cex : GData := ⟨[⟨"Income"⟩], [], []⟩

/-- C3 counterexample: the node Income of gC3cex contains an Income marker
and has in-degree 0, yet after the percent computer runs over all (zero)
flow edges its percent is 0, not 1. -/
theorem claim_C3_counterexample :
    markerIA (idOf gC3cex 0) = true ∧
    gC3cex.links.countP (fun e => decide (e.target = 0)) = 0 ∧
    (nodes_percent gC3cex).getD 0 0 = 0 := by
  refine ⟨by decide, by decide, ?_⟩
  show (List.replicate 1 (0 : ℚ)).getD 0 0 = 0
  exact getD_replicate_zero 1 0

/-- C3 amended: a node with an Income or Assets marker and in-degree 0 has
percent exactly 1 after the percent computer runs, provided it is the source
of at least one flow edge and none of its outgoing flow edges points at a
node whose id contains an Income or Assets marker (without these two extra
conditions the slot can stay 0 or be overwritten through a swapped edge). -/
theorem claim_C3_amended (g : GData) (i : ℕ) (hi : i < g.nodes.length)
    (hm : markerIA (idOf g i) = true)
    (hdeg : g.links.countP (fun e => decide (e.target = i)) = 0)
    (hout : ∃ e ∈ g.links, e.source = i)
    (hnoIA : ∀ e ∈ g.links, e.source = i → markerIA (idOf g e.target) = false) :
    (∀ totals, (compute_percent g totals).getD i 0 = 1) ∧
    (nodes_percent g).getD i 0 = 1 := by
  have hT : ∀ e ∈ g.links, e.target ≠ i := by
    intro e he
    have := List.countP_eq_zero.mp hdeg e he
    simpa using this
  have main : ∀ totals, (compute_percent g totals).getD i 0 = 1 := by
    intro totals
    exact pfold_one g totals i hi hm g.links (List.replicate g.nodes.length 0)
      (List.length_replicate _ _) hT hnoIA (Or.inl hout)
  exact ⟨main, main (compute_total g)⟩

/-- A concrete graph for the amended root-percent theorem: the Income root
feeds one Expenses node. -/
def gC3w : GData := ⟨[⟨"Income"⟩, ⟨"Expenses:Food"⟩], [⟨0, 1, 40⟩], []⟩

/-- Witness for the amended C3 theorem at a concrete graph. -/
theorem claim_C3_amended_witness :
    (0 < gC3w.nodes.length ∧ markerIA (idOf gC3w 0) = true ∧
      gC3w.links.countP (fun e => decide (e.target = 0)) = 0) ∧
    (nodes_percent gC3w).getD 0 0 = 1 := by
  refine ⟨⟨by decide, by decide, by decide⟩, ?_⟩
  exact (claim_C3_amended gC3w 0 (by decide) (by decide) (by decide)
    ⟨⟨0, 1, 40⟩, by simp [gC3w], rfl⟩
    (by
      intro e he hsrc
      simp only [gC3w, List.mem_singleton] at he
      subst he
      decide)).2

/-! ## Claim C5: total monotonicity -/

/-- A value representable as a whole number of cents, never negative: the
shape of every slot of the running-total array. -/
def isCent (x : ℚ) : Prop := ∃ m : ℕ, x = (m : ℚ) / 100

theorem isCent_zero : isCent 0 := ⟨0, by norm_num⟩

/-- Adding a non-negative amount to a cent value and rounding with the
epsilon-biased 2-decimal rounding never decreases it, and yields a cent
value again. -/
theorem round2_cent_le (m : ℕ) (v : ℚ) (hv : 0 ≤ v) :
    (m : ℚ) / 100 ≤ round2 ((m : ℚ) / 100 + v) ∧ isCent (round2 ((m : ℚ) / 100 + v)) := by
  have hε : (0 : ℚ) ≤ jsEPSILON := by unfold jsEPSILON; positivity
  have hfl : (m : ℤ) ≤ jsRound (((m : ℚ) / 100 + v + jsEPSILON) * 100) := by
    unfold jsRound
    apply Int.le_floor.mpr
    push_cast
    nlinarith
  have h0 : (0 : ℤ) ≤ jsRound (((m : ℚ) / 100 + v + jsEPSILON) * 100) :=
    le_trans (Int.natCast_nonneg m) hfl
  constructor
  · unfold round2
    have hc : ((m : ℤ) : ℚ) ≤ (jsRound (((m : ℚ) / 100 + v + jsEPSILON) * 100) : ℚ) := by
      exact_mod_cast hfl
    have := (div_le_div_iff_of_pos_right (c := (100 : ℚ)) (by norm_num)).mpr hc
    push_cast at this ⊢
    linarith
  · refine ⟨(jsRound (((m : ℚ) / 100 + v + jsEPSILON) * 100)).toNat, ?_⟩
    unfold round2
    congr 1
    exact_mod_cast (Int.toNat_of_nonneg h0).symm

/-- Setting slot i to the rounded sum of its current value and a non-negative
amount is a pointwise-non-decreasing update preserving the cent shape. -/
theorem set_round2_bump (ans : List ℚ) (i : ℕ) (v : ℚ) (hv : 0 ≤ v)
    (hC : ∀ j, isCent (ans.getD j 0)) :
    (∀ j, ans.getD j 0 ≤ (ans.set i (round2 (ans.getD i 0 + v))).getD j 0) ∧
    (∀ j, isCent ((ans.set i (round2 (ans.getD i 0 + v))).getD j 0)) := by
  by_cases hlt : i < ans.length
  · constructor
    · intro j
      by_cases hj : i = j
      · subst hj
        rw [getD_set_eq ans i _ 0 hlt]
        obtain ⟨m, hm⟩ := hC i
        rw [hm]
        exact (round2_cent_le m v hv).1
      · rw [getD_set_ne ans _ 0 hj]
    · intro j
      by_cases hj : i = j
      · subst hj
        rw [getD_set_eq ans i _ 0 hlt]
        obtain ⟨m, hm⟩ := hC i
        rw [hm]
        exact (round2_cent_le m v hv).2
      · rw [getD_set_ne ans _ 0 hj]
        exact hC j
  · rw [List.set_eq_of_length_le (le_of_not_lt hlt)]
    exact ⟨fun j => le_refl _, hC⟩

/-- One total iteration is pointwise non-decreasing and preserves the cent
shape of the running-total array when the edge value is non-negative. -/
theorem tstep_mono (dg : List ℕ) (ans : List ℚ) (e : GLink) (hv : 0 ≤ e.value)
    (hC : ∀ j, isCent (ans.getD j 0)) :
    (∀ j, ans.getD j 0 ≤ (tstep dg ans e).getD j 0) ∧
    (∀ j, isCent ((tstep dg ans e).getD j 0)) := by
  dsimp only [tstep]
  by_cases hdg : dg.getD e.source 0 = 0
  · rw [if_pos hdg, add_comm e.value (ans.getD e.source 0)]
    have h1 := set_round2_bump ans e.source e.value hv hC
    have h2 := set_round2_bump (ans.set e.source (round2 (ans.getD e.source 0 + e.value)))
      e.target e.value hv h1.2
    exact ⟨fun j => le_trans (h1.1 j) (h2.1 j), h2.2⟩
  · rw [if_neg hdg]
    exact set_round2_bump ans e.target e.value hv hC

theorem totalAfter_succ (g : GData) (k : ℕ) :
    totalAfter g (k + 1) = (g.links[k]?).toList.foldl (tstep (indeg g)) (totalAfter g k) := by
  unfold totalAfter
  rw [List.take_succ, List.foldl_append]

/-- Every slot of every running-total prefix is a whole number of cents. -/
theorem totalAfter_cent (g : GData) (hv : ∀ e ∈ g.links, 0 ≤ e.value) :
    ∀ k j, isCent ((totalAfter g k).getD j 0) := by
  intro k
  induction k with
  | zero =>
    intro j
    unfold totalAfter
    simp only [List.take_zero, List.foldl_nil]
    rw [getD_replicate_zero]
    exact isCent_zero
  | succ k ih =>
    intro j
    rw [totalAfter_succ]
    cases hk : g.links[k]? with
    | none => simpa using ih j
    | some e =>
      simp only [Option.toList, List.foldl_cons, List.foldl_nil]
      exact (tstep_mono (indeg g) _ e (hv e (List.getElem?_mem hk)) ih).2 j

/-- C5: compute_total is the running total after all links, and for every
node slot and every prefix length, the running total is non-negative and
does not decrease from one processed edge to the next, the epsilon-biased
2-decimal rounding notwithstanding, provided all edge values are
non-negative. -/
theorem claim_C5 (g : GData) (hv : ∀ e ∈ g.links, 0 ≤ e.value) (k i : ℕ) :
    compute_total g = totalAfter g g.links.length ∧
    0 ≤ (totalAfter g k).getD i 0 ∧
    (totalAfter g k).getD i 0 ≤ (totalAfter g (k + 1)).getD i 0 := by
  refine ⟨?_, ?_, ?_⟩
  · unfold compute_total totalAfter
    rw [List.take_length]
  · obtain ⟨m, hm⟩ := totalAfter_cent g hv k i
    rw [hm]
    positivity
  · rw [totalAfter_succ]
    cases hk : g.links[k]? with
    | none => simp
    | some e =>
      simp only [Option.toList, List.foldl_cons, List.foldl_nil]
      exact (tstep_mono (indeg g) _ e (hv e (List.getElem?_mem hk)) (totalAfter_cent g hv k)).1 i

/-- A concrete graph for instantiating the monotonicity theorem. -/
def gC5w : GData := ⟨[⟨"Income"⟩, ⟨"Expenses:Food"⟩], [⟨0, 1, 40⟩], []⟩

/-- Witness for C5 at a concrete graph, prefix 0 and node 0. -/
theorem claim_C5_witness :
    (∀ e ∈ gC5w.links, 0 ≤ e.value) ∧
    0 ≤ (totalAfter gC5w 0).getD 0 0 ∧
    (totalAfter gC5w 0).getD 0 0 ≤ (totalAfter gC5w 1).getD 0 0 := by
  have hv : ∀ e ∈ gC5w.links, 0 ≤ e.value := by
    intro e he
    simp only [gC5w, List.mem_singleton] at he
    subst he
    norm_num
  exact ⟨hv, (claim_C5 gC5w hv 0 0).2.1, (claim_C5 gC5w hv 0 0).2.2⟩

/-! ## Claim C7: label suppression in percent mode -/

theorem compute_name_aux_getD (g : GData) (totals percents actual : List ℚ) :
    ∀ (l : List GNode) (start i : ℕ), i < l.length →
    (compute_name_aux g totals percents actual start l).getD i "" =
      nameAt g totals percents actual (start + i) (l.getD i ⟨""⟩) := by
  intro l
  induction l with
  | nil => intro start i hi; exact absurd hi (by simp)
  | cons nd l ih =>
    intro start i hi
    cases i with
    | zero => simp [compute_name_aux]
    | succ i =>
      have hi' : i < l.length := by simpa using hi
      simp only [compute_name_aux, List.getD_cons_succ]
      rw [ih (start + 1) i hi']
      congr 1
      omega

/-- The label list of compute_name reads off nameAt at each node position. -/
theorem compute_name_getD (g : GData) (totals percents actual : List ℚ)
    (i : ℕ) (hi : i < g.nodes.length) :
    (compute_name g totals percents actual).getD i "" =
      nameAt g totals percents actual i (g.nodes.getD i ⟨""⟩) := by
  unfold compute_name
  rw [compute_name_aux_getD g totals percents actual g.nodes 0 i hi]
  simp

/-- C7: in percent mode, a node whose colon depth exceeds 2 and whose percent
lies below the threshold exclude_percent gets the empty label, and otherwise
the label is the short name, the 2-decimal total and the percent times 100
rounded to an integer. -/
theorem claim_C7 (g : GData) (totals percents actual : List ℚ)
    (hb : g.budget_actual = []) (i : ℕ) (hi : i < g.nodes.length) :
    ((2 < (jsSplit (idOf g i) ':').length ∧ percents.getD i 0 < exclude_percent) →
      (compute_name g totals percents actual).getD i "" = "") ∧
    (¬(2 < (jsSplit (idOf g i) ':').length ∧ percents.getD i 0 < exclude_percent) →
      (compute_name g totals percents actual).getD i "" =
        nameShort (idOf g i) ++ ": " ++ toFixed 2 (totals.getD i 0)
          ++ " (" ++ toFixed 0 (percents.getD i 0 * 100) ++ "%)") := by
  rw [compute_name_getD g totals percents actual i hi]
  unfold nameAt idOf
  have hb0 : g.budget_actual.length = 0 := by rw [hb]; rfl
  rw [if_pos hb0]
  constructor
  · intro h; rw [if_pos h]
  · intro h; rw [if_neg h]

/-- A one-node percent-mode graph with a depth-3 Expenses node. -/
def gC7w : GData := ⟨[⟨"Expenses:A:B"⟩], [], []⟩

/-- Witness for C7: at percent 0.004 the depth-3 label is suppressed to the
empty string, at percent 0.006 it is not empty. -/
theorem claim_C7_witness :
    (gC7w.budget_actual = [] ∧ 0 < gC7w.nodes.length ∧
      2 < (jsSplit (idOf gC7w 0) ':').length ∧
      ([4 / 1000] : List ℚ).getD 0 0 < exclude_percent) ∧
    (compute_name gC7w [0] [4 / 1000] [0]).getD 0 "" = "" ∧
    (compute_name gC7w [0] [6 / 1000] [0]).getD 0 "" ≠ "" := by
  have hcond : 2 < (jsSplit (idOf gC7w 0) ':').length ∧
      ([4 / 1000] : List ℚ).getD 0 0 < exclude_percent := by
    constructor
    · decide
    · show (4 / 1000 : ℚ) < exclude_percent
      norm_num [exclude_percent]
  refine ⟨⟨rfl, by decide, hcond⟩, ?_, ?_⟩
  · exact (claim_C7 gC7w [0] [4 / 1000] [0] rfl 0 (by decide)).1 hcond
  · have happ := (claim_C7 gC7w [0] [6 / 1000] [0] rfl 0 (by decide)).2 (by
      rintro ⟨-, hlt⟩
      rw [show ([6 / 1000] : List ℚ).getD 0 0 = 6 / 1000 from rfl] at hlt
      norm_num [exclude_percent] at hlt)
    rw [happ]
    have e1 : ([(0 : ℚ)]).getD 0 0 = 0 := rfl
    have e2 : ([6 / 1000] : List ℚ).getD 0 0 = 6 / 1000 := rfl
    have f1 : toFixed 2 (0 : ℚ) = "0.00" := by
      norm_num [toFixed, padZeros, Int.floor_eq_iff]
      decide
    have f2 : toFixed 0 ((6 / 1000 : ℚ) * 100) = "1" := by
      have h35 : ((6 / 1000 : ℚ) * 100) = 3 / 5 := by norm_num
      rw [h35]
      have habs : |(3 / 5 : ℚ)| = 3 / 5 := by
        rw [abs_of_nonneg]
        norm_num
      norm_num [toFixed, habs, Int.floor_eq_iff]
      decide
    rw [e1, e2, f1, f2]
    decide

/-! ## Claim C9: missing budget overlay defaults to zero -/

/-- A node index hit by no budget overlay edge keeps the default actual
value 0. -/
theorem compute_budget_actual_unmatched (g : GData) (i : ℕ)
    (hno : ∀ be ∈ g.budget_actual, name_index_map g be.target ≠ some i) :
    (compute_budget_actual g).getD i 0 = 0 := by
  unfold compute_budget_actual
  have main : ∀ (bs : List GBudget) (act : List ℚ),
      (∀ be ∈ bs, name_index_map g be.target ≠ some i) →
      (bs.foldl (fun act be =>
        match name_index_map g be.target with
        | some j => act.set j be.value
        | none => act) act).getD i 0 = act.getD i 0 := by
    intro bs
    induction bs with
    | nil => intro act _; rfl
    | cons be bs ih =>
      intro act hno'
      rw [List.foldl_cons]
      cases h : name_index_map g be.target with
      | none =>
        simp only [h]
        exact ih act (fun b hb => hno' b (List.mem_cons_of_mem be hb))
      | some j =>
        have hji : j ≠ i := by
          intro hEq
          exact hno' be (List.mem_cons_self be bs) (by rw [h, hEq])
        simp only [h]
        rw [ih _ (fun b hb => hno' b (List.mem_cons_of_mem be hb))]
        exact getD_set_ne act _ 0 hji
  rw [main g.budget_actual _ hno]
  exact getD_replicate_zero _ _

/-- C9: in budget mode, a node with no matching budget overlay edge gets the
default actual value 0, and its label shows the bracket total over total
minus zero, so the missing overlay is not displayed as a zero budget figure:
the second bracket component equals the total itself. -/
theorem claim_C9 (g : GData) (totals percents : List ℚ) (i : ℕ)
    (hb : g.budget_actual ≠ []) (hi : i < g.nodes.length)
    (hno : ∀ be ∈ g.budget_actual, name_index_map g be.target ≠ some i) :
    (compute_budget_actual g).getD i 0 = 0 ∧
    (compute_name g totals percents (compute_budget_actual g)).getD i "" =
      ((jsSplit (idOf g i) '_').getD 1 "undefined") ++ " ["
        ++ toFixed 2 (totals.getD i 0) ++ "/"
        ++ toFixed 2 (totals.getD i 0) ++ "]"
        ++ " (" ++ toFixed 0 (percents.getD i 0 * 100) ++ "%)" := by
  have h0 := compute_budget_actual_unmatched g i hno
  refine ⟨h0, ?_⟩
  rw [compute_name_getD _ _ _ _ i hi]
  unfold nameAt idOf
  have hb0 : ¬ g.budget_actual.length = 0 := by
    intro h
    exact hb (List.length_eq_zero.mp h)
  rw [if_neg hb0, h0, sub_zero]

/-- The scenario-B sankey-layer graph: Income feeding Expenses:Food with
flow 40 and one budget overlay of 50 on Expenses:Food; the Income node has
no overlay. -/
def gC9w : GData :=
  ⟨[⟨"Income"⟩, ⟨"Expenses:Food"⟩], [⟨0, 1, 40⟩], [⟨"Income", "Expenses:Food", 50⟩]⟩

/-- Witness for C9 at the concrete budget-mode graph, node Income. -/
theorem claim_C9_witness :
    (gC9w.budget_actual ≠ [] ∧ 0 < gC9w.nodes.length ∧
      (∀ be ∈ gC9w.budget_actual, name_index_map gC9w be.target ≠ some 0)) ∧
    (compute_budget_actual gC9w).getD 0 0 = 0 ∧
    (compute_name gC9w [40, 40] [1, 1] (compute_budget_actual gC9w)).getD 0 "" =
      ((jsSplit (idOf gC9w 0) '_').getD 1 "undefined") ++ " ["
        ++ toFixed 2 (([40, 40] : List ℚ).getD 0 0) ++ "/"
        ++ toFixed 2 (([40, 40] : List ℚ).getD 0 0) ++ "]"
        ++ " (" ++ toFixed 0 (([1, 1] : List ℚ).getD 0 0 * 100) ++ "%)" := by
  have hno : ∀ be ∈ gC9w.budget_actual, name_index_map gC9w be.target ≠ some 0 := by
    intro be hbe
    simp only [gC9w, List.mem_singleton] at hbe
    subst hbe
    decide
  have h := claim_C9 gC9w [40, 40] [1, 1] 0 (by simp [gC9w]) (by decide) hno
  exact ⟨⟨by simp [gC9w], by decide, hno⟩, h.1, h.2⟩

/-! ## Decoder lemmas -/

theorem LinkDelta.empty_append (d : LinkDelta) :
    (⟨[], [], [], []⟩ : LinkDelta).append d = d := by
  cases d
  simp [LinkDelta.append]

/-- A tuple whose token splits to a count other than 1 or 2 contributes
nothing: the decoder loop body falls through all branches. -/
theorem processTuple_dropped (l : SankeyRawLink)
    (h1 : (splitTok l.value).length ≠ 1) (h2 : (splitTok l.value).length ≠ 2) :
    processTuple l = some ⟨[], [], [], []⟩ := by
  rcases hsplit : splitTok l.value with - | ⟨v1, - | ⟨v2, - | ⟨v3, tl⟩⟩⟩
  · simp [processTuple, hsplit]
  · exact absurd (by rw [hsplit]; rfl) h1
  · exact absurd (by rw [hsplit]; rfl) h2
  · simp [processTuple, hsplit]

/-- Every collapsed link a tuple contributes comes with a defined first
part of its source id and with the corresponding excluded endpoint recorded. -/
theorem processTuple_collapsed (l : SankeyRawLink) (d0 : LinkDelta)
    (h : processTuple l = some d0) :
    ∀ e ∈ d0.collapsed_links, ∃ fp, first_part e.source = some fp ∧
      (if catHit fp then e.target else e.source) ∈ d0.excluded := by
  intro e he
  rcases hsplit : splitTok l.value with - | ⟨v1, - | ⟨v2, - | ⟨v3, tl⟩⟩⟩ <;>
    simp only [processTuple, hsplit] at h
  · obtain rfl := Option.some_inj.mp h
    simp at he
  · obtain rfl := Option.some_inj.mp h
    simp at he
  · by_cases hv2 : v2 = "collapsed"
    · rw [if_pos hv2] at h
      cases hfp : first_part l.source with
      | none => rw [hfp] at h; exact Option.noConfusion h
      | some fp =>
        rw [hfp] at h
        obtain rfl := Option.some_inj.mp h
        simp only [List.mem_singleton] at he
        subst he
        exact ⟨fp, hfp, List.mem_singleton.mpr rfl⟩
    · rw [if_neg hv2] at h
      obtain rfl := Option.some_inj.mp h
      simp at he
  · obtain rfl := Option.some_inj.mp h
    simp at he

/-- Over a whole record, every collapsed link has its excluded endpoint in
the final per-record exclusion set. -/
theorem decodeLinks_collapsed (ls : List SankeyRawLink) :
    ∀ (dlt : LinkDelta), decodeLinks ls = some dlt →
    ∀ e ∈ dlt.collapsed_links, ∃ fp, first_part e.source = some fp ∧
      (if catHit fp then e.target else e.source) ∈ dlt.excluded := by
  induction ls with
  | nil =>
    intro dlt h e he
    simp only [decodeLinks, Option.some_inj] at h
    obtain rfl := h
    simp at he
  | cons l ls ih =>
    intro dlt h e he
    simp only [decodeLinks] at h
    rcases hp : processTuple l with - | d0
    · simp [hp] at h
    · rcases hd : decodeLinks ls with - | ds
      · simp [hp, hd] at h
      · simp only [hp, hd, Option.some_inj] at h
        obtain rfl := h
        rcases List.mem_append.mp (by simpa [LinkDelta.append] using he) with h0 | hs
        · obtain ⟨fp, hfp, hmem⟩ := processTuple_collapsed l d0 hp e h0
          exact ⟨fp, hfp, List.mem_append_left _ hmem⟩
        · obtain ⟨fp, hfp, hmem⟩ := ih ds hd e hs
          exact ⟨fp, hfp, List.mem_append_right _ hmem⟩

theorem decodeLinks_filter (ls : List SankeyRawLink) :
    decodeLinks (ls.filter
      (fun l => (splitTok l.value).length == 1 || (splitTok l.value).length == 2))
      = decodeLinks ls := by
  induction ls with
  | nil => rfl
  | cons l ls ih =>
    by_cases hg : ((splitTok l.value).length == 1 || (splitTok l.value).length == 2) = true
    · rw [show List.filter
          (fun l => (splitTok l.value).length == 1 || (splitTok l.value).length == 2) (l :: ls)
          = l :: List.filter
            (fun l => (splitTok l.value).length == 1 || (splitTok l.value).length == 2) ls from by
        rw [List.filter_cons, if_pos hg]]
      simp only [decodeLinks]
      rw [ih]
    · rw [show List.filter
          (fun l => (splitTok l.value).length == 1 || (splitTok l.value).length == 2) (l :: ls)
          = List.filter
            (fun l => (splitTok l.value).length == 1 || (splitTok l.value).length == 2) ls from by
        rw [List.filter_cons, if_neg hg]]
      have hlen : (splitTok l.value).length ≠ 1 ∧ (splitTok l.value).length ≠ 2 := by
        constructor <;> intro hEq <;> apply hg <;> simp [hEq]
      have hp : processTuple l = some ⟨[], [], [], []⟩ :=
        processTuple_dropped l hlen.1 hlen.2
      cases hrest : decodeLinks ls with
      | none =>
        rw [ih, hrest]
        simp only [decodeLinks, hp, hrest]
      | some ds =>
        rw [ih, hrest]
        simp only [decodeLinks, hp, hrest, LinkDelta.empty_append]

/-- Every node emitted by one record of a successful decode appears in the
node list of the whole decoded payload. -/
theorem sankeyplot_record_nodes :
    ∀ (payload : List SankeyRecord) (g : SankeyData) (j : ℕ) (r : SankeyRecord),
    sankeyplot payload = some g → payload[j]? = some r →
    ∃ d, decodeRecord r = some d ∧ ∀ x ∈ d.nodes, x ∈ g.nodes := by
  intro payload
  induction payload with
  | nil => intro g j r _ hj; simp at hj
  | cons r0 rest ih =>
    intro g j r h hj
    simp only [sankeyplot] at h
    rcases hd : decodeRecord r0 with - | d0
    · simp [hd] at h
    · rcases hrest : sankeyplot rest with - | ds
      · simp [hd, hrest] at h
      · simp only [hd, hrest, Option.some_inj] at h
        obtain rfl := h
        cases j with
        | zero =>
          simp only [List.getElem?_cons_zero, Option.some_inj] at hj
          subst hj
          exact ⟨d0, hd, fun x hx => List.mem_append_left _ hx⟩
        | succ j =>
          simp only [List.getElem?_cons_succ] at hj
          obtain ⟨d, hdec, hsub⟩ := ih ds j r hrest hj
          exact ⟨d, hdec, fun x hx => List.mem_append_right _ (hsub x hx)⟩

/-! ## Claim C2: collapse exclusivity -/

/-- A two-record payload: the first record carries a collapsed edge from a
source of category Assets toward target B, the second record lists B among
its nodes. -/
def cexC2 : List SankeyRecord :=
  [⟨[], [⟨"x_Assets:A", "B", "1 collapsed"⟩]⟩, ⟨["B"], []⟩]

/-- C2 counterexample: decoding cexC2 succeeds and yields a collapsed edge
whose source category, extracted as the claim words it, is Assets, yet the
target id B does appear in the decoded node list, because the exclusion map
is per record and B arrives from the second record. -/
theorem claim_C2_counterexample :
    sankeyplot cexC2 = some ⟨["B"], [], [], [⟨"x_Assets:A", "B", some 1⟩]⟩ ∧
    (⟨"x_Assets:A", "B", some 1⟩ : SankeyLink)
      ∈ (⟨["B"], [], [], [⟨"x_Assets:A", "B", some 1⟩]⟩ : SankeyData).collapsed_links ∧
    specCategory "x_Assets:A" = "Assets" ∧
    "B" ∈ (⟨["B"], [], [], [⟨"x_Assets:A", "B", some 1⟩]⟩ : SankeyData).nodes := by
  refine ⟨?_, by simp, by decide, by simp⟩
  simp [cexC2, sankeyplot, decodeRecord, decodeLinks, processTuple, splitTok, jsSplit,
    splitChAux, jsNumber, digitsToNat?, first_part, catHit, jsIncludes, hasSubList,
    LinkDelta.append]

/-- C2 amended: within one record, a collapsed tuple is appended to the
collapsed links with the numeric value of its first token and contributes
nothing to the flow links; and for every collapsed link of a successfully
decoded record, the token after the first underscore of the first colon
segment of the source id is defined, and if it contains Assets, Expenses or
Equity as a substring then the target id is not emitted from that record,
otherwise the source id is not emitted from that record. -/
theorem claim_C2_amended :
    (∀ (l : SankeyRawLink) (v1 : String), splitTok l.value = [v1, "collapsed"] →
      processTuple l = (first_part l.source).map (fun fp =>
        ⟨[], [], [⟨l.source, l.target, jsNumber v1⟩],
          [if catHit fp then l.target else l.source]⟩)) ∧
    (∀ (r : SankeyRecord) (d : SankeyData), decodeRecord r = some d →
      ∀ e ∈ d.collapsed_links, ∃ fp, first_part e.source = some fp ∧
        (catHit fp = true → e.target ∉ d.nodes) ∧
        (catHit fp = false → e.source ∉ d.nodes)) := by
  constructor
  · intro l v1 hsplit
    simp only [processTuple, hsplit]
    rw [if_pos trivial]
    cases first_part l.source <;> rfl
  · intro r d h e he
    unfold decodeRecord at h
    obtain ⟨dlt, hdlt, hfd⟩ := Option.map_eq_some'.mp h
    obtain rfl := hfd
    obtain ⟨fp, hfp, hmem⟩ := decodeLinks_collapsed r.links_ss dlt hdlt e he
    have hnot : ∀ x ∈ dlt.excluded,
        x ∉ r.nodes_ss.filter (fun nd => !(dlt.excluded.contains nd)) := by
      intro x hx hin
      have hkeep := (List.mem_filter.mp hin).2
      have hc : dlt.excluded.contains x = true := List.elem_iff.mpr hx
      rw [hc] at hkeep
      exact Bool.false_ne_true hkeep
    refine ⟨fp, hfp, ?_, ?_⟩
    · intro hcat
      have hmem' : e.target ∈ dlt.excluded := by
        rw [hcat] at hmem
        simpa using hmem
      exact hnot e.target hmem'
    · intro hcat
      have hmem' : e.source ∈ dlt.excluded := by
        rw [hcat] at hmem
        simpa using hmem
      exact hnot e.source hmem'

/-- A one-record payload whose node array lists both B and the Assets source
of a collapsed edge toward B. -/
def rC2w : SankeyRecord := ⟨["B", "x_Assets:A"], [⟨"x_Assets:A", "B", "1 collapsed"⟩]⟩

/-- The decode of rC2w: B is excluded, only the source id is emitted. -/
def dC2w : SankeyData := ⟨["x_Assets:A"], [], [], [⟨"x_Assets:A", "B", some 1⟩]⟩

/-- Witness for the amended C2 theorem on a concrete record. -/
theorem claim_C2_amended_witness :
    decodeRecord rC2w = some dC2w ∧
    (⟨"x_Assets:A", "B", some 1⟩ : SankeyLink) ∈ dC2w.collapsed_links ∧
    "B" ∉ dC2w.nodes := by
  have hdec : decodeRecord rC2w = some dC2w := by
    simp [rC2w, dC2w, decodeRecord, decodeLinks, processTuple, splitTok, jsSplit,
      splitChAux, jsNumber, digitsToNat?, first_part, catHit, jsIncludes, hasSubList,
      LinkDelta.append]
  have hmem : (⟨"x_Assets:A", "B", some 1⟩ : SankeyLink) ∈ dC2w.collapsed_links := by
    simp [dC2w]
  obtain ⟨fp, hfp, hT, hF⟩ := claim_C2_amended.2 rC2w dC2w hdec _ hmem
  have hsome : (some "Assets" : Option String) = some fp := by
    rw [← hfp]; decide
  have hfp2 : fp = "Assets" := (Option.some_inj.mp hsome).symm
  exact ⟨hdec, hmem, hT (by rw [hfp2]; decide)⟩

/-! ## Claim C4: budget overlay decoding and budget-mode label -/

/-- The scenario-B payload: one record with the token 40 50 between Income
and Expenses:Food. -/
def payloadB : List SankeyRecord :=
  [⟨["Income", "Expenses:Food"], [⟨"Income", "Expenses:Food", "40 50"⟩]⟩]

/-- The scenario-B sankey-layer graph after d3 resolves the decoded ids to
node positions. -/
def gScenB : GData :=
  ⟨[⟨"Income"⟩, ⟨"Expenses:Food"⟩], [⟨0, 1, 40⟩], [⟨"Income", "Expenses:Food", 50⟩]⟩

theorem gScenB_total : compute_total gScenB = [40, 40] := by
  simp [gScenB, compute_total, tstep, indeg, round2, jsRound, jsEPSILON]
  norm_num [Int.floor_eq_iff]

theorem gScenB_percent : nodes_percent gScenB = [1, 1] := by
  unfold nodes_percent
  rw [gScenB_total]
  simp [gScenB, compute_percent, pstep, swappedSource, swappedTarget, idOf, markerIA,
    jsIncludes, hasSubList, jsSplit, splitChAux, round2, jsRound, jsEPSILON]
  norm_num [Int.floor_eq_iff]

theorem gScenB_actual : compute_budget_actual gScenB = [0, 50] := by
  simp [gScenB, compute_budget_actual, name_index_map, idOf]

theorem gScenB_label :
    (nodes_name gScenB).getD 1 "" = "undefined [40.00/-10.00] (100%)" := by
  unfold nodes_name
  rw [gScenB_total, gScenB_percent, gScenB_actual]
  simp [gScenB, compute_name, compute_name_aux, nameAt, exclude_percent, jsSplit, splitChAux]
  norm_num [toFixed, Int.floor_eq_iff]
  decide

/-- C4: a tuple with two whitespace tokens whose second is not the literal
collapsed yields both a flow link with the numeric value of the first token
and a budget overlay link with the numeric value of the second, sharing
source and target; on the scenario-B payload the decode produces exactly
that, and the budget-mode label of Expenses:Food contains the bracket of
the total followed by total minus actual, 40.00 over -10.00. -/
theorem claim_C4 :
    (∀ (l : SankeyRawLink) (v1 v2 : String), splitTok l.value = [v1, v2] →
      v2 ≠ "collapsed" →
      processTuple l = some ⟨[⟨l.source, l.target, jsNumber v1⟩],
        [⟨l.source, l.target, jsNumber v2⟩], [], []⟩) ∧
    sankeyplot payloadB = some ⟨["Income", "Expenses:Food"],
      [⟨"Income", "Expenses:Food", some 40⟩],
      [⟨"Income", "Expenses:Food", some 50⟩], []⟩ ∧
    jsIncludes ((nodes_name gScenB).getD 1 "") "[40.00/-10.00]" = true := by
  refine ⟨?_, ?_, ?_⟩
  · intro l v1 v2 hsplit hne
    simp only [processTuple, hsplit]
    rw [if_neg hne]
  · simp [payloadB, sankeyplot, decodeRecord, decodeLinks, processTuple, splitTok,
      jsSplit, splitChAux, jsNumber, digitsToNat?, LinkDelta.append]
  · rw [gScenB_label]
    decide

/-- Witness for the universally quantified part of C4 at the scenario-B
tuple. -/
theorem claim_C4_witness :
    splitTok "40 50" = ["40", "50"] ∧ ("50" : String) ≠ "collapsed" ∧
    processTuple ⟨"Income", "Expenses:Food", "40 50"⟩ =
      some ⟨[⟨"Income", "Expenses:Food", jsNumber "40"⟩],
        [⟨"Income", "Expenses:Food", jsNumber "50"⟩], [], []⟩ := by
  have h1 : splitTok "40 50" = ["40", "50"] := by decide
  have h2 : ("50" : String) ≠ "collapsed" := by decide
  exact ⟨h1, h2, claim_C4.1 ⟨"Income", "Expenses:Food", "40 50"⟩ "40" "50" h1 h2⟩

/-! ## Claim C8: malformed tokens are dropped locally -/

/-- C8: a tuple whose token count is neither 1 nor 2 contributes no flow,
collapsed or budget link and no exclusion, and removing all such tuples from
a record leaves the decode of the record unchanged, so the other tuples are
decoded unaffected and the batch is not aborted by them. -/
theorem claim_C8 :
    (∀ l : SankeyRawLink, (splitTok l.value).length ≠ 1 →
      (splitTok l.value).length ≠ 2 → processTuple l = some ⟨[], [], [], []⟩) ∧
    (∀ r : SankeyRecord,
      decodeRecord ⟨r.nodes_ss, r.links_ss.filter
        (fun l => (splitTok l.value).length == 1 || (splitTok l.value).length == 2)⟩
        = decodeRecord r) := by
  refine ⟨processTuple_dropped, ?_⟩
  intro r
  unfold decodeRecord
  dsimp only
  rw [decodeLinks_filter]

/-- A record with one malformed three-token tuple and one valid tuple. -/
def rC8w : SankeyRecord := ⟨["N"], [⟨"a", "b", "abc def ghi"⟩, ⟨"a", "b", "7"⟩]⟩

/-- Witness for C8: the malformed tuple of rC8w is dropped and filtering it
out does not change the decode. -/
theorem claim_C8_witness :
    ((splitTok "abc def ghi").length ≠ 1 ∧ (splitTok "abc def ghi").length ≠ 2) ∧
    processTuple ⟨"a", "b", "abc def ghi"⟩ = some ⟨[], [], [], []⟩ ∧
    decodeRecord ⟨rC8w.nodes_ss, rC8w.links_ss.filter
      (fun l => (splitTok l.value).length == 1 || (splitTok l.value).length == 2)⟩
      = decodeRecord rC8w := by
  exact ⟨⟨by decide, by decide⟩,
    claim_C8.1 ⟨"a", "b", "abc def ghi"⟩ (by decide) (by decide),
    claim_C8.2 rC8w⟩

/-! ## Claim C10: the collapse-exclusion map is per record -/

/-- A record carrying a collapsed edge whose Assets source excludes target B. -/
def rC10x : SankeyRecord := ⟨[], [⟨"x_Assets:A", "B", "1 collapsed"⟩]⟩

/-- A record that both lists B among its nodes and excludes B itself. -/
def rC10y : SankeyRecord := ⟨["B"], [⟨"x_Assets:A", "B", "1 collapsed"⟩]⟩

/-- C10 counterexample: in the payload of rC10x and rC10y, the id B is marked
excluded while decoding record 0 and appears in the node array of the other
record 1, yet it is not emitted into the decoded node list, because record 1
marks it excluded again; the claim as stated predicts emission. -/
theorem claim_C10_counterexample :
    sankeyplot [rC10x, rC10y]
      = some ⟨[], [], [],
        [⟨"x_Assets:A", "B", some 1⟩, ⟨"x_Assets:A", "B", some 1⟩]⟩ ∧
    decodeLinks rC10x.links_ss
      = some ⟨[], [], [⟨"x_Assets:A", "B", some 1⟩], ["B"]⟩ ∧
    "B" ∈ (⟨[], [], [⟨"x_Assets:A", "B", some 1⟩], ["B"]⟩ : LinkDelta).excluded ∧
    [rC10x, rC10y][0]? = some rC10x ∧ [rC10x, rC10y][1]? = some rC10y ∧
    (0 : ℕ) ≠ 1 ∧ "B" ∈ rC10y.nodes_ss ∧
    "B" ∉ (⟨[], [], [],
      [⟨"x_Assets:A", "B", some 1⟩, ⟨"x_Assets:A", "B", some 1⟩]⟩ : SankeyData).nodes := by
  refine ⟨?_, ?_, by simp, by simp, by simp, by decide, by simp [rC10y], by simp⟩
  · simp [rC10x, rC10y, sankeyplot, decodeRecord, decodeLinks, processTuple, splitTok,
      jsSplit, splitChAux, jsNumber, digitsToNat?, first_part, catHit, jsIncludes,
      hasSubList, LinkDelta.append]
  · simp [rC10x, decodeLinks, processTuple, splitTok, jsSplit, splitChAux, jsNumber,
      digitsToNat?, first_part, catHit, jsIncludes, hasSubList, LinkDelta.append]

/-- C10 amended: in a successfully decoded multi-record payload, an id marked
excluded while decoding record i is still emitted into the node list when it
appears in the node array of a different record j, provided the collapsed
edges of record j itself do not mark that id excluded. -/
theorem claim_C10_amended (payload : List SankeyRecord) (g : SankeyData)
    (i j : ℕ) (ri rj : SankeyRecord) (dlti dltj : LinkDelta) (id : String)
    (h : sankeyplot payload = some g)
    (hi : payload[i]? = some ri) (hj : payload[j]? = some rj) (hij : i ≠ j)
    (hdi : decodeLinks ri.links_ss = some dlti) (hexi : id ∈ dlti.excluded)
    (hnd : id ∈ rj.nodes_ss)
    (hdj : decodeLinks rj.links_ss = some dltj) (hexj : id ∉ dltj.excluded) :
    id ∈ g.nodes := by
  obtain ⟨d, hdec, hsub⟩ := sankeyplot_record_nodes payload g j rj h hj
  unfold decodeRecord at hdec
  rw [hdj] at hdec
  simp only [Option.map_some'] at hdec
  obtain rfl := Option.some_inj.mp hdec
  apply hsub
  apply List.mem_filter.mpr
  refine ⟨hnd, ?_⟩
  have hc : dltj.excluded.contains id = false := by
    cases hcc : dltj.excluded.contains id
    · rfl
    · exact absurd (List.elem_iff.mp hcc) hexj
  rw [hc]
  rfl

/-- A two-record payload where only the first record excludes B. -/
def rC10z : SankeyRecord := ⟨["B"], []⟩

/-- Witness for the amended C10 theorem: B is excluded by record 0 but the
second record, which does not exclude it, still emits it. -/
theorem claim_C10_amended_witness :
    sankeyplot [rC10x, rC10z]
      = some ⟨["B"], [], [], [⟨"x_Assets:A", "B", some 1⟩]⟩ ∧
    "B" ∈ (⟨["B"], [], [], [⟨"x_Assets:A", "B", some 1⟩]⟩ : SankeyData).nodes := by
  have hdec : sankeyplot [rC10x, rC10z]
      = some ⟨["B"], [], [], [⟨"x_Assets:A", "B", some 1⟩]⟩ := by
    simp [rC10x, rC10z, sankeyplot, decodeRecord, decodeLinks, processTuple, splitTok,
      jsSplit, splitChAux, jsNumber, digitsToNat?, first_part, catHit, jsIncludes,
      hasSubList, LinkDelta.append]
  have hdx : decodeLinks rC10x.links_ss
      = some ⟨[], [], [⟨"x_Assets:A", "B", some 1⟩], ["B"]⟩ := by
    simp [rC10x, decodeLinks, processTuple, splitTok, jsSplit, splitChAux, jsNumber,
      digitsToNat?, first_part, catHit, jsIncludes, hasSubList, LinkDelta.append]
  have hdz : decodeLinks rC10z.links_ss = some ⟨[], [], [], []⟩ := by
    simp [rC10z, decodeLinks]
  refine ⟨hdec, ?_⟩
  exact claim_C10_amended [rC10x, rC10z]
    ⟨["B"], [], [], [⟨"x_Assets:A", "B", some 1⟩]⟩ 0 1 rC10x rC10z
    ⟨[], [], [⟨"x_Assets:A", "B", some 1⟩], ["B"]⟩ ⟨[], [], [], []⟩ "B"
    hdec (by simp) (by simp) (by decide) hdx (by simp) (by simp [rC10z]) hdz (by simp)
